import Mathlib

/-!
A verification development for the Go rules engine in `dlgo/goboard.py`.

The Python source is shallowly embedded: pure methods become Lean
functions, in-place mutation of a `Board` becomes explicit state passing
(`Board → Board`), and code that can raise a Python exception returns
`Except PyErr`.  Python `int` values are embedded as `Int` (coordinates,
board dimensions) and masks/hashes as `Nat` (Python integers are
unbounded, and the Zobrist hash only ever XORs non-negative codes).
-/

/-- The Python exceptions that the embedded code can raise:
`assert` failures and attribute lookups on a missing attribute or on
`None`. -/
inductive PyErr where
  | assertError
  | attrError
deriving DecidableEq

/-- Modelled from the spec: gotypes.py is not part of the sources.  The
spec describes `Player` as "one of two values" with "a total,
involution-like `other` mapping (black↔white)". -/
inductive Player where
  | black
  | white
deriving DecidableEq

/-- Modelled from the spec: the "other side" operation on `Player`. -/
def Player.other : Player → Player
  | .black => .white
  | .white => .black

/-- Modelled from the spec: a coordinate is an "integer row/column pair,
1-indexed" (gotypes.py is not part of the sources). -/
structure Point where
  row : Int
  col : Int
deriving DecidableEq

/-- Modelled from the spec: `neighbors()` "yields the (up to 4)
orthogonally adjacent coordinates without bounds filtering". -/
def Point.neighbors (p : Point) : List Point :=
  [⟨p.row - 1, p.col⟩, ⟨p.row + 1, p.col⟩, ⟨p.row, p.col - 1⟩, ⟨p.row, p.col + 1⟩]

/-- Modelled from the spec: zobrist.py is not part of the sources.  The
spec describes a "process-wide immutable lookup from (coordinate, color)
to a wide random integer, plus a fixed empty-position constant"; the
concrete random values are irrelevant to the claims, so the development
is parametric in the table. -/
structure Zobrist where
  code : Point → Player → Nat
  empty : Nat

/-- `GoString` from goboard.py: a color, a frozenset of stones and a
frozenset of liberties. -/
structure GoString where
  color : Player
  stones : Finset Point
  liberties : Finset Point
deriving DecidableEq

/-- `GoString.without_liberty`: returns a new string with `point` removed
from the liberties. -/
def GoString.without_liberty (s : GoString) (p : Point) : GoString :=
  ⟨s.color, s.stones, s.liberties.erase p⟩

/-- `GoString.with_liberty`: the source body is
`new_liberties = self.liberities | set([point])`, which reads the
misspelled attribute `liberities`; no `GoString` instance has it, so
every call raises `AttributeError` before computing anything. -/
def GoString.with_liberty (_s : GoString) (_p : Point) : Except PyErr GoString :=
  .error .attrError

/-- `GoString.merged_with`: asserts equal colors, then returns the union
of the stones with liberties `(self.liberties | other.liberties) -
combined_stones`. -/
def GoString.merged_with (self other : GoString) : Except PyErr GoString :=
  if other.color = self.color then
    .ok ⟨self.color, self.stones ∪ other.stones,
         (self.liberties ∪ other.liberties) \ (self.stones ∪ other.stones)⟩
  else .error .assertError

/-- `GoString.num_liberties`. -/
def GoString.num_liberties (s : GoString) : Nat :=
  s.liberties.card

/-- `Board` from goboard.py.  The `_grid` dict maps points to the string
occupying them (`None`/absent entries both read back as `None` through
`dict.get`, so the grid is embedded as a total function into `Option`).
-/
structure Board where
  num_rows : Int
  num_cols : Int
  grid : Point → Option GoString
  hash : Nat

/-- `Board.__init__`: an empty grid plus the `zobrist.EMPTY_BOARD`
constant. -/
def Board.init (Z : Zobrist) (nr nc : Int) : Board :=
  ⟨nr, nc, fun _ => none, Z.empty⟩

/-- `Board.is_on_grid`. -/
def Board.is_on_grid (b : Board) (p : Point) : Bool :=
  decide (1 ≤ p.row ∧ p.row ≤ b.num_rows ∧ 1 ≤ p.col ∧ p.col ≤ b.num_cols)

/-- `Board.get`: the occupying color, or `None`. -/
def Board.get (b : Board) (p : Point) : Option Player :=
  (b.grid p).map GoString.color

/-- `Board.get_go_string`: the occupying string, or `None`. -/
def Board.get_go_string (b : Board) (p : Point) : Option GoString :=
  b.grid p

/-- `Board.zobrist_hash`. -/
def Board.zobrist_hash (b : Board) : Nat :=
  b.hash

/-- `Board._replace_string`: write `new_string` into the grid at every
stone it owns (the loop writes the same value at each of its stones, so
the iteration order of the frozenset is irrelevant). -/
def replace_string (b : Board) (ns : GoString) : Board :=
  { b with grid := fun q => if q ∈ ns.stones then some ns else b.grid q }

/-- An order on points used to enumerate a frozenset of stones in the
embedding (the Python iteration order of a frozenset is unspecified; see
`remove_string`). -/
def ptLE (a b : Point) : Prop :=
  a.row < b.row ∨ (a.row = b.row ∧ a.col ≤ b.col)

instance : DecidableRel ptLE := fun a b => by
  unfold ptLE; infer_instance

instance : IsTrans Point ptLE :=
  ⟨by intro a b c hab hbc; rcases hab with h | ⟨h1, h2⟩ <;> rcases hbc with h' | ⟨h1', h2'⟩ <;>
      unfold ptLE <;> omega⟩

instance : IsAntisymm Point ptLE :=
  ⟨by intro a b hab hba; rcases a with ⟨ar, ac⟩; rcases b with ⟨br, bc⟩
      rcases hab with h | ⟨h1, h2⟩ <;> rcases hba with h' | ⟨h1', h2'⟩ <;> simp_all <;> omega⟩

instance : IsTotal Point ptLE :=
  ⟨by intro a b; unfold ptLE; omega⟩

/-- Enumerate a finite set of points as a sorted list (structurally
recursive insertion sort, so that concrete runs reduce inside the
kernel). -/
def sortStones (s : Finset Point) : List Point :=
  Quot.liftOn s.val (fun l => l.insertionSort ptLE) (by
    intro l1 l2 h
    exact List.eq_of_perm_of_sorted
      (((l1.perm_insertionSort ptLE).trans h).trans (l2.perm_insertionSort ptLE).symm)
      (l1.sorted_insertionSort ptLE) (l2.sorted_insertionSort ptLE))

/-- The body of the loop in `Board._remove_string` for one stone `p` of
the removed string `s`: first every occupied neighbor that is a
different string receives `with_liberty` (which always raises, see
`GoString.with_liberty`), then the cell is cleared and the stone's hash
code is XORed out. -/
def removePointStep (Z : Zobrist) (s : GoString) (cur : Board) (p : Point) :
    Except PyErr Board :=
  (p.neighbors.foldlM (fun (c : Board) (q : Point) =>
      match c.grid q with
      | none => pure c
      | some t =>
        -- `neighbor_string is not string`: the grid stores shared
        -- references, so object identity coincides with value equality
        -- on coherently stored boards.
        if t = s then pure c
        else (t.with_liberty p).bind (fun repl => pure (replace_string c repl))) cur).bind
    (fun c => pure (Board.mk c.num_rows c.num_cols
      (fun q => if q = p then none else c.grid q) (c.hash ^^^ Z.code p s.color)))

/-- `Board._remove_string`: the loop over `string.stones`, enumerated in
sorted order (the frozenset iteration order is unspecified in Python;
every theorem below that touches this function is insensitive to the
chosen order). -/
def remove_string (Z : Zobrist) (b : Board) (s : GoString) : Except PyErr Board :=
  (sortStones s.stones).foldlM (removePointStep Z s) b

/-- The neighbor scan at the top of `Board.place_stone`: partition the
(on-grid) neighbors into empty points, distinct same-color strings and
distinct opposite-color strings, preserving encounter order and
deduplicating by (structural) equality exactly as the Python `not in`
checks do. -/
def scanNeighbors (b : Board) (player : Player) (pt : Point) :
    List Point × List GoString × List GoString :=
  pt.neighbors.foldl (fun acc n =>
    if b.is_on_grid n = true then
      match b.grid n with
      | none => (acc.1 ++ [n], acc.2.1, acc.2.2)
      | some ns =>
        if ns.color = player then
          if ns ∈ acc.2.1 then acc else (acc.1, acc.2.1 ++ [ns], acc.2.2)
        else
          if ns ∈ acc.2.2 then acc else (acc.1, acc.2.1, acc.2.2 ++ [ns])
    else acc) ([], [], [])

/-- One iteration of the final loop of `Board.place_stone` over the
adjacent opposite-color strings: drop the played point from the
liberties; if liberties remain, store the replacement, otherwise remove
the whole string. -/
def oppStep (Z : Zobrist) (pt : Point) (cur : Board) (o : GoString) :
    Except PyErr Board :=
  -- `replacement` in the source names `o.without_liberty pt`; the source
  -- recomputes the same value when storing it via `_replace_string`.
  if (o.without_liberty pt).num_liberties ≠ 0 then
    pure (replace_string cur (o.without_liberty pt))
  else remove_string Z cur o

/-- `Board.place_stone`: assert the point is on-grid and empty, scan the
neighbors, fold-merge the new one-stone string with the adjacent
same-color strings, write the merged string into the grid, XOR the new
stone's code into the hash, and finally update or remove each adjacent
opposite-color string. -/
def place_stone (Z : Zobrist) (b : Board) (player : Player) (pt : Point) :
    Except PyErr Board :=
  if b.is_on_grid pt = true then
    match b.grid pt with
    | some _ => .error .assertError
    | none =>
      let scan := scanNeighbors b player pt
      let new0 : GoString := ⟨player, {pt}, scan.1.toFinset⟩
      (scan.2.1.foldlM GoString.merged_with new0).bind (fun new_string =>
        let b1 := replace_string b new_string
        let b2 : Board := { b1 with hash := b1.hash ^^^ Z.code pt player }
        scan.2.2.foldlM (oppStep Z pt) b2)
  else .error .assertError

/-- `Move` from goboard.py: an optional point plus the two flags; the
`is_play` field of the source is definitionally `point is not None`. -/
structure Move where
  point : Option Point
  is_pass : Bool
  is_resign : Bool
deriving DecidableEq

/-- `Move.is_play = (self.point is not None)`. -/
def Move.is_play (m : Move) : Bool :=
  m.point.isSome

/-- `Move.__init__`: the guard is the Python expression
`(point is not None) ^ is_pass ^ is_resign` (a left-associated boolean
XOR chain), raising `AssertionError` when it is false. -/
def Move.init (point : Option Point) (is_pass is_resign : Bool) : Except PyErr Move :=
  if ((point.isSome.xor is_pass).xor is_resign) = true then
    .ok ⟨point, is_pass, is_resign⟩
  else .error .assertError

/-- `Move.play`: `Move(point=point)` (the constructor's assert holds for
these arguments; see the C6 theorem). -/
def Move.play (pt : Point) : Move :=
  ⟨some pt, false, false⟩

/-- `Move.pass_turn`: `Move(is_pass=True)`. -/
def Move.pass_turn : Move :=
  ⟨none, true, false⟩

/-- `Move.resign`: `Move(is_resign=True)`. -/
def Move.resign : Move :=
  ⟨none, false, true⟩

/-- `GameState` from goboard.py: a board, the player to move, an optional
predecessor, the accumulated `(player, hash)` situations, and the move
that produced the node. -/
inductive GameState where
  | mk : Board → Player → Option GameState → Finset (Player × Nat) → Option Move → GameState

/-- Field accessor: the node's board. -/
def GameState.board : GameState → Board
  | .mk b _ _ _ _ => b

/-- Field accessor: the player to move. -/
def GameState.next_player : GameState → Player
  | .mk _ p _ _ _ => p

/-- Field accessor: the predecessor node. -/
def GameState.previous : GameState → Option GameState
  | .mk _ _ pr _ _ => pr

/-- Field accessor: the accumulated previous situations. -/
def GameState.previous_states : GameState → Finset (Player × Nat)
  | .mk _ _ _ ps _ => ps

/-- Field accessor: the last move. -/
def GameState.last_move : GameState → Option Move
  | .mk _ _ _ _ m => m

/-- `GameState.__init__`: stores the fields and computes
`previous_states` as the empty frozenset at the root and otherwise as
`previous.previous_states | {(previous.next_player,
previous.board.zobrist_hash())}`. -/
def GameState.init (board : Board) (next_player : Player) (previous : Option GameState)
    (move : Option Move) : GameState :=
  .mk board next_player previous
    (match previous with
     | none => ∅
     | some p => insert (p.next_player, p.board.zobrist_hash) p.previous_states)
    move

/-- `GameState.apply_move`: for a play, deep-copy the board (a value copy
in the embedding) and place the stone on the copy; otherwise share the
board; then build the child node via `GameState.__init__`. -/
def GameState.apply_move (Z : Zobrist) (s : GameState) (m : Move) : Except PyErr GameState :=
  match m.point with
  | some pt =>
    (place_stone Z s.board s.next_player pt).bind (fun next_board =>
      pure (GameState.init next_board s.next_player.other (some s) (some m)))
  | none => pure (GameState.init s.board s.next_player.other (some s) (some m))

/-- `GameState.new_game` for an `int` board size: a square empty board,
black to move, no predecessor, no last move. -/
def GameState.new_game (Z : Zobrist) (board_size : Int) : GameState :=
  GameState.init (Board.init Z board_size board_size) .black none none

/-- `GameState.is_over`: `False` with no last move; `True` on a
resignation; then the source reads `self.previous_state.last_move`,
which raises `AttributeError` when the node has a last move but no
predecessor (impossible for nodes built by `apply_move`). -/
def GameState.is_over (s : GameState) : Except PyErr Bool :=
  match s.last_move with
  | none => pure false
  | some m =>
    if m.is_resign then pure true
    else
      match s.previous with
      | none => .error .attrError
      | some p =>
        match p.last_move with
        | none => pure false
        | some m2 => pure (m.is_pass && m2.is_pass)

/-- `GameState.is_move_self_capture`: `False` for non-plays; otherwise
simulate the placement on a board copy and test whether the resulting
string at the played point has zero liberties (`None.num_liberties`
would raise, hence the `attrError` arm). -/
def GameState.is_move_self_capture (Z : Zobrist) (s : GameState) (player : Player)
    (m : Move) : Except PyErr Bool :=
  match m.point with
  | none => pure false
  | some pt =>
    (place_stone Z s.board player pt).bind (fun next_board =>
      match next_board.get_go_string pt with
      | some new_string => pure (new_string.num_liberties == 0)
      | none => .error .attrError)

/-- `GameState.does_move_violate_ko`: `False` for non-plays; otherwise
simulate the placement and test whether `(player.other, resulting hash)`
is already in `previous_states`. -/
def GameState.does_move_violate_ko (Z : Zobrist) (s : GameState) (player : Player)
    (m : Move) : Except PyErr Bool :=
  match m.point with
  | none => pure false
  | some pt =>
    (place_stone Z s.board player pt).bind (fun next_board =>
      pure (decide ((player.other, next_board.zobrist_hash) ∈ s.previous_states)))

/-- `GameState.is_valid_move`: `False` when the game is over; `True` for
pass/resign; otherwise the short-circuit conjunction of "target empty",
"not self-capture" and "not ko".  (For the degenerate `point is None`
non-pass non-resign move, which the constructor never produces, Python
evaluates `grid.get(None) is None` to `True` and both predicates to
`False`, so the conjunction is `True`.) -/
def GameState.is_valid_move (Z : Zobrist) (s : GameState) (m : Move) : Except PyErr Bool :=
  s.is_over.bind (fun over =>
    if over then pure false
    else if m.is_pass || m.is_resign then pure true
    else
      match m.point with
      | none => pure true
      | some pt =>
        match s.board.grid pt with
        | some _ => pure false
        | none =>
          (GameState.is_move_self_capture Z s s.next_player m).bind (fun sc =>
            if sc then pure false
            else (GameState.does_move_violate_ko Z s s.next_player m).bind (fun ko =>
              pure (!ko))))

/-- A concrete Zobrist table used to run the embedded code on concrete
inputs: distinct powers of two for the points exercised by the tests,
empty-board constant 0. -/
def Zdemo : Zobrist :=
  ⟨fun p pl =>
    2 ^ ((p.row.toNat % 6) * 12 + (p.col.toNat % 6) * 2 +
         (match pl with | .black => 0 | .white => 1)), 0⟩

/-- The on-grid points of a board. -/
def allPoints (b : Board) : Finset Point :=
  (Finset.Icc 1 b.num_rows ×ˢ Finset.Icc 1 b.num_cols).image (fun rc => ⟨rc.1, rc.2⟩)

/-- The Zobrist contribution of one cell: the code of the occupying
(coordinate, color) pair, or 0 for an empty cell. -/
def cellCode (Z : Zobrist) (b : Board) (p : Point) : Nat :=
  match b.grid p with
  | some s => Z.code p s.color
  | none => 0

/-- The XOR of the Zobrist codes of every occupied (coordinate, color)
pair of the board. -/
def boardXor (Z : Zobrist) (b : Board) : Nat :=
  (allPoints b).fold (fun a c : Nat => a ^^^ c) 0 (cellCode Z b)

/-- Grid coherence: every stored string contains the cell it is stored
at, and is stored at each of its stones (the "shared reference"
discipline of the source, where many grid cells point to one string
object). -/
def Coherent (b : Board) : Prop :=
  ∀ p s, b.grid p = some s → p ∈ s.stones ∧ ∀ q ∈ s.stones, b.grid q = some s

/-- Only on-grid cells are occupied. -/
def OnGridOnly (b : Board) : Prop :=
  ∀ p, b.grid p ≠ none → b.is_on_grid p = true

/-- The hash invariant of the spec: the stored hash is the empty-board
constant XORed with the codes of all occupied cells. -/
def HashInv (Z : Zobrist) (b : Board) : Prop :=
  b.hash = Z.empty ^^^ boardXor Z b

/-- The full board invariant. -/
def BoardInv (Z : Zobrist) (b : Board) : Prop :=
  Coherent b ∧ OnGridOnly b ∧ HashInv Z b

/-- Boards reachable from a fresh empty board by successful `place_stone`
calls. -/
inductive Reachable (Z : Zobrist) : Board → Prop where
  | init : ∀ nr nc, Reachable Z (Board.init Z nr nc)
  | step : ∀ b player pt b', Reachable Z b → place_stone Z b player pt = .ok b' →
      Reachable Z b'

/-- Game states reachable through the public lifecycle: `new_game` roots
and successful `apply_move` children. -/
inductive ReachableState (Z : Zobrist) : GameState → Prop where
  | root : ∀ n, ReachableState Z (GameState.new_game Z n)
  | step : ∀ s m s', ReachableState Z s → GameState.apply_move Z s m = .ok s' →
      ReachableState Z s'

/-- A move that violates a rule from a given state, in the four
categories the spec lists: playing after game-over, occupied target,
self-capture, ko. -/
def Violating (Z : Zobrist) (s : GameState) (m : Move) : Prop :=
  GameState.is_over s = .ok true ∨
  (∃ pt, m.point = some pt ∧ s.board.get pt ≠ none) ∨
  GameState.is_move_self_capture Z s s.next_player m = .ok true ∨
  GameState.does_move_violate_ko Z s s.next_player m = .ok true

/-!
A heap model for the copy-on-write discipline of `apply_move` (claim
C8).  Python `Board` objects are mutable and shared by reference; the
heap is a list of boards and a game state holds the index of its board
object.  `apply_move` deep-copies the current board into a fresh cell
and mutates only that cell, so the predecessor's cell is untouched.
-/

/-- A game state whose board is a reference into a heap of boards; the
other fields mirror `GameState`. -/
inductive GameStateH where
  | mk : Nat → Player → Option GameStateH → Finset (Player × Nat) → Option Move → GameStateH

/-- Field accessor: the heap index of the node's board object. -/
def GameStateH.bref : GameStateH → Nat
  | .mk r _ _ _ _ => r

/-- Field accessor: the player to move. -/
def GameStateH.next_player : GameStateH → Player
  | .mk _ p _ _ _ => p

/-- Field accessor: the accumulated previous situations. -/
def GameStateH.previous_states : GameStateH → Finset (Player × Nat)
  | .mk _ _ _ ps _ => ps

/-- `GameState.apply_move` at the heap level.  For a play the current
board is deep-copied into a fresh heap cell and `place_stone` mutates
only the copy (when the placement raises, the partial writes also land
only in the fresh cell, which nothing else references; the cell is
modelled as holding the copy).  A pass or resignation shares the board
reference.  The child's `previous_states` uses the predecessor's board
hash, exactly as `GameState.__init__` reads
`previous.board.zobrist_hash()`. -/
def applyMoveH (Z : Zobrist) (h : List Board) (s : GameStateH) (m : Move) :
    List Board × Except PyErr GameStateH :=
  match m.point with
  | some pt =>
    let b := h.getD s.bref (Board.init Z 0 0)
    match place_stone Z b s.next_player pt with
    | .ok b' =>
      (h ++ [b'],
       .ok (GameStateH.mk h.length s.next_player.other (some s)
         (insert (s.next_player, b.zobrist_hash) s.previous_states) (some m)))
    | .error e => (h ++ [b], .error e)
  | none =>
    (h,
     .ok (GameStateH.mk s.bref s.next_player.other (some s)
       (insert (s.next_player, (h.getD s.bref (Board.init Z 0 0)).zobrist_hash)
         s.previous_states) (some m)))

/-!  Concrete runs of the embedded code, used by the counterexample and
witness theorems below.  -/

/-- Extract the board of a successful run (the fallback is never used in
the runs below, each of which is shown to succeed by `rfl`). -/
def exOkB : Except PyErr Board → Board
  | .ok b => b
  | .error _ => Board.init Zdemo 0 0

/-- Extract the state of a successful run (the fallback is never used in
the runs below, each of which is shown to succeed by `rfl`). -/
def exOkGS : Except PyErr GameState → GameState
  | .ok s => s
  | .error _ => GameState.new_game Zdemo 2

/-- The capture scenario of the spec, at board level: on an empty 5×5
board black plays (3,3), then white plays the four surrounding points.
-/
def c1Chain : Except PyErr Board :=
  (place_stone Zdemo (Board.init Zdemo 5 5) .black ⟨3, 3⟩).bind (fun b1 =>
  (place_stone Zdemo b1 .white ⟨2, 3⟩).bind (fun b2 =>
  (place_stone Zdemo b2 .white ⟨4, 3⟩).bind (fun b3 =>
  (place_stone Zdemo b3 .white ⟨3, 2⟩).bind (fun b4 =>
  place_stone Zdemo b4 .white ⟨3, 4⟩))))

/-- A game on a 2×2 board: black (1,1), white (1,2), black passes.
White to move; white's play at (2,1) would capture black's stone. -/
def c3State : Except PyErr GameState :=
  (GameState.apply_move Zdemo (GameState.new_game Zdemo 2) (Move.play ⟨1, 1⟩)).bind (fun s1 =>
  (GameState.apply_move Zdemo s1 (Move.play ⟨1, 2⟩)).bind (fun s2 =>
  GameState.apply_move Zdemo s2 Move.pass_turn))

/-- The state after black plays (1,1) on a fresh 2×2 board. -/
def c2S : GameState :=
  exOkGS (GameState.apply_move Zdemo (GameState.new_game Zdemo 2) (Move.play ⟨1, 1⟩))

/-- Suicide scenario boards: black at (1,2) and (2,1) on a 2×2 board. -/
def sb1 : Board := exOkB (place_stone Zdemo (Board.init Zdemo 2 2) .black ⟨1, 2⟩)

/-- Second step of the suicide scenario. -/
def sb2 : Board := exOkB (place_stone Zdemo sb1 .black ⟨2, 1⟩)

/-- White's suicide at (1,1): the placement completes, captures nothing,
and leaves the white string with zero liberties. -/
def sb3 : Board := exOkB (place_stone Zdemo sb2 .white ⟨1, 1⟩)

/-- The board state in the middle of `place_stone`, after the merged
string has been written into the grid and the new stone's code XORed
into the hash, but before the adjacent opposite-color strings are
processed. -/
def mergedBoard (Z : Zobrist) (b : Board) (pl : Player) (pt : Point) (ns : GoString) : Board :=
  Board.mk b.num_rows b.num_cols (fun q => if q ∈ ns.stones then some ns else b.grid q)
    (b.hash ^^^ Z.code pt pl)

/-! ## Helper lemmas -/

instance : Std.Commutative (fun a c : Nat => a ^^^ c) :=
  ⟨Nat.xor_comm⟩

instance : Std.Associative (fun a c : Nat => a ^^^ c) :=
  ⟨Nat.xor_assoc⟩

theorem mem_allPoints {b : Board} {p : Point} :
    p ∈ allPoints b ↔ b.is_on_grid p = true := by
  rcases p with ⟨r, c⟩
  simp only [allPoints, Board.is_on_grid, Finset.mem_image, Finset.mem_product,
    Finset.mem_Icc, Point.mk.injEq, decide_eq_true_eq, Prod.exists]
  constructor
  · rintro ⟨a, b1, ⟨⟨h1, h2⟩, h3, h4⟩, rfl, rfl⟩
    exact ⟨h1, h2, h3, h4⟩
  · rintro ⟨h1, h2, h3, h4⟩
    exact ⟨r, c, ⟨⟨h1, h2⟩, h3, h4⟩, rfl, rfl⟩

theorem xorFold_extract (s : Finset Point) (f : Point → Nat) (a : Point) (ha : a ∈ s) :
    s.fold (fun x y : Nat => x ^^^ y) 0 f
      = f a ^^^ (s.erase a).fold (fun x y : Nat => x ^^^ y) 0 f := by
  conv_lhs => rw [← Finset.insert_erase ha]
  rw [Finset.fold_insert (Finset.not_mem_erase a s)]

theorem mem_neighbors_symm {p q : Point} (h : q ∈ p.neighbors) : p ∈ q.neighbors := by
  rcases p with ⟨r, c⟩
  rcases q with ⟨qr, qc⟩
  simp only [Point.neighbors, List.mem_cons, List.mem_singleton, Point.mk.injEq,
    List.not_mem_nil, or_false] at h ⊢
  omega

theorem mem_sortStones {s : Finset Point} {p : Point} : p ∈ sortStones s ↔ p ∈ s := by
  rcases s with ⟨m, nd⟩
  simp only [Finset.mem_mk]
  show p ∈ Quot.liftOn m (fun l => l.insertionSort ptLE) _ ↔ p ∈ m
  exact Quotient.inductionOn m (fun l => by
    simp [(List.perm_insertionSort ptLE l).mem_iff])

theorem scan_spec (b : Board) (pl : Player) (pt : Point) :
    (∀ s ∈ (scanNeighbors b pl pt).2.1,
        s.color = pl ∧ ∃ n, n ∈ pt.neighbors ∧ b.grid n = some s) ∧
    (∀ s ∈ (scanNeighbors b pl pt).2.2,
        s.color ≠ pl ∧ ∃ n, n ∈ pt.neighbors ∧ b.grid n = some s) ∧
    (scanNeighbors b pl pt).2.2.Nodup := by
  have main : ∀ (l : List Point), (∀ n ∈ l, n ∈ pt.neighbors) →
      ∀ acc : List Point × List GoString × List GoString,
      (∀ s ∈ acc.2.1, s.color = pl ∧ ∃ n, n ∈ pt.neighbors ∧ b.grid n = some s) →
      (∀ s ∈ acc.2.2, s.color ≠ pl ∧ ∃ n, n ∈ pt.neighbors ∧ b.grid n = some s) →
      acc.2.2.Nodup →
      (∀ s ∈ (l.foldl (fun acc n =>
          if b.is_on_grid n = true then
            match b.grid n with
            | none => (acc.1 ++ [n], acc.2.1, acc.2.2)
            | some ns =>
              if ns.color = pl then
                if ns ∈ acc.2.1 then acc else (acc.1, acc.2.1 ++ [ns], acc.2.2)
              else
                if ns ∈ acc.2.2 then acc else (acc.1, acc.2.1, acc.2.2 ++ [ns])
          else acc) acc).2.1,
          s.color = pl ∧ ∃ n, n ∈ pt.neighbors ∧ b.grid n = some s) ∧
      (∀ s ∈ (l.foldl (fun acc n =>
          if b.is_on_grid n = true then
            match b.grid n with
            | none => (acc.1 ++ [n], acc.2.1, acc.2.2)
            | some ns =>
              if ns.color = pl then
                if ns ∈ acc.2.1 then acc else (acc.1, acc.2.1 ++ [ns], acc.2.2)
              else
                if ns ∈ acc.2.2 then acc else (acc.1, acc.2.1, acc.2.2 ++ [ns])
          else acc) acc).2.2,
          s.color ≠ pl ∧ ∃ n, n ∈ pt.neighbors ∧ b.grid n = some s) ∧
      (l.foldl (fun acc n =>
          if b.is_on_grid n = true then
            match b.grid n with
            | none => (acc.1 ++ [n], acc.2.1, acc.2.2)
            | some ns =>
              if ns.color = pl then
                if ns ∈ acc.2.1 then acc else (acc.1, acc.2.1 ++ [ns], acc.2.2)
              else
                if ns ∈ acc.2.2 then acc else (acc.1, acc.2.1, acc.2.2 ++ [ns])
          else acc) acc).2.2.Nodup := by
    intro l
    induction l with
    | nil => intro _ acc h1 h2 h3; exact ⟨h1, h2, h3⟩
    | cons n tl ih =>
      intro hmem acc h1 h2 h3
      simp only [List.foldl_cons]
      have hn : n ∈ pt.neighbors := hmem n (List.mem_cons_self n tl)
      have htl : ∀ x ∈ tl, x ∈ pt.neighbors := fun x hx => hmem x (List.mem_cons_of_mem n hx)
      by_cases hog : b.is_on_grid n = true
      · rw [if_pos hog]
        cases hg : b.grid n with
        | none => exact ih htl _ h1 h2 h3
        | some ns =>
          dsimp only
          by_cases hcol : ns.color = pl
          · rw [if_pos hcol]
            by_cases hin : ns ∈ acc.2.1
            · rw [if_pos hin]; exact ih htl _ h1 h2 h3
            · rw [if_neg hin]
              refine ih htl (acc.1, acc.2.1 ++ [ns], acc.2.2) ?_ h2 h3
              intro s hs
              rcases List.mem_append.mp hs with hs | hs
              · exact h1 s hs
              · rcases List.mem_singleton.mp hs with rfl
                exact ⟨hcol, n, hn, hg⟩
          · rw [if_neg hcol]
            by_cases hin : ns ∈ acc.2.2
            · rw [if_pos hin]; exact ih htl _ h1 h2 h3
            · rw [if_neg hin]
              refine ih htl (acc.1, acc.2.1, acc.2.2 ++ [ns]) h1 ?_ ?_
              · intro s hs
                rcases List.mem_append.mp hs with hs | hs
                · exact h2 s hs
                · rcases List.mem_singleton.mp hs with rfl
                  exact ⟨hcol, n, hn, hg⟩
              · simp only [List.nodup_append, List.nodup_cons, List.not_mem_nil,
                  not_false_iff, List.nodup_nil, and_true, true_and]
                constructor
                · exact h3
                · simp only [List.disjoint_singleton]
                  exact hin
      · rw [if_neg hog]; exact ih htl _ h1 h2 h3
  exact main pt.neighbors (fun n h => h) ([], [], []) (by simp) (by simp) (by simp)

theorem mergeFold_spec : ∀ (l : List GoString) (a : GoString),
    (∀ s ∈ l, s.color = a.color) →
    ∃ ns, l.foldlM GoString.merged_with a = .ok ns ∧ ns.color = a.color ∧
      (∀ q, q ∈ ns.stones ↔ q ∈ a.stones ∨ ∃ s, s ∈ l ∧ q ∈ s.stones) := by
  intro l
  induction l with
  | nil =>
    intro a _
    exact ⟨a, rfl, rfl, by simp⟩
  | cons s tl ih =>
    intro a hcol
    have hs : s.color = a.color := hcol s (List.mem_cons_self s tl)
    have hstep : GoString.merged_with a s
        = .ok ⟨a.color, a.stones ∪ s.stones,
               (a.liberties ∪ s.liberties) \ (a.stones ∪ s.stones)⟩ := by
      unfold GoString.merged_with
      rw [if_pos hs]
    obtain ⟨ns, h1, h2, h3⟩ := ih ⟨a.color, a.stones ∪ s.stones,
      (a.liberties ∪ s.liberties) \ (a.stones ∪ s.stones)⟩
      (fun t ht => hcol t (List.mem_cons_of_mem s ht))
    refine ⟨ns, ?_, h2, ?_⟩
    · rw [List.foldlM_cons, hstep]
      exact h1
    · intro q
      rw [h3 q]
      simp only [Finset.mem_union, List.mem_cons]
      constructor
      · rintro (⟨h | h⟩ | ⟨t, ht, hq⟩)
        · exact Or.inl h
        · exact Or.inr ⟨s, Or.inl rfl, h⟩
        · exact Or.inr ⟨t, Or.inr ht, hq⟩
      · rintro (h | ⟨t, (rfl | ht), hq⟩)
        · exact Or.inl (Or.inl h)
        · exact Or.inl (Or.inr hq)
        · exact Or.inr ⟨t, ht, hq⟩

theorem removeInner_ok_or_err (s : GoString) (p : Point) :
    ∀ (l : List Point) (c : Board),
      l.foldlM (fun (c : Board) (q : Point) =>
        match c.grid q with
        | none => pure c
        | some t =>
          if t = s then pure c
          else (t.with_liberty p).bind (fun repl => pure (replace_string c repl))) c
        = .ok c ∨
      l.foldlM (fun (c : Board) (q : Point) =>
        match c.grid q with
        | none => pure c
        | some t =>
          if t = s then pure c
          else (t.with_liberty p).bind (fun repl => pure (replace_string c repl))) c
        = .error .attrError := by
  intro l
  induction l with
  | nil => intro c; left; rfl
  | cons q tl ih =>
    intro c
    rw [List.foldlM_cons]
    cases hg : c.grid q with
    | none => exact ih c
    | some t =>
      dsimp only
      by_cases ht : t = s
      · rw [if_pos ht]; exact ih c
      · rw [if_neg ht]; right; rfl

theorem removeInner_err (s : GoString) (p : Point) :
    ∀ (l : List Point) (c : Board),
      (∃ q ∈ l, ∃ t, c.grid q = some t ∧ t ≠ s) →
      l.foldlM (fun (c : Board) (q : Point) =>
        match c.grid q with
        | none => pure c
        | some t =>
          if t = s then pure c
          else (t.with_liberty p).bind (fun repl => pure (replace_string c repl))) c
        = .error .attrError := by
  intro l
  induction l with
  | nil =>
    rintro c ⟨q, hq, _⟩
    exact absurd hq (List.not_mem_nil q)
  | cons q1 tl ih =>
    rintro c ⟨q, hq, t, hg, ht⟩
    rw [List.foldlM_cons]
    cases hg1 : c.grid q1 with
    | none =>
      rcases List.mem_cons.mp hq with rfl | hqtl
      · rw [hg1] at hg; cases hg
      · exact ih c ⟨q, hqtl, t, hg, ht⟩
    | some t1 =>
      dsimp only
      by_cases ht1 : t1 = s
      · rw [if_pos ht1]
        rcases List.mem_cons.mp hq with rfl | hqtl
        · rw [hg1] at hg
          cases hg
          exact absurd ht1 ht
        · exact ih c ⟨q, hqtl, t, hg, ht⟩
      · rw [if_neg ht1]; rfl

theorem removePointStep_cases (Z : Zobrist) (s : GoString) (c : Board) (p : Point) :
    removePointStep Z s c p = .error .attrError ∨
    removePointStep Z s c p = .ok (Board.mk c.num_rows c.num_cols
      (fun q => if q = p then none else c.grid q) (c.hash ^^^ Z.code p s.color)) := by
  unfold removePointStep
  rcases removeInner_ok_or_err s p p.neighbors c with h | h
  · right; rw [h]; rfl
  · left; rw [h]; rfl

theorem removeFold_err (Z : Zobrist) (s : GoString) :
    ∀ (l : List Point) (c : Board) (q0 : Point) (t0 : GoString),
      (∀ x ∈ l, x ∈ s.stones) → q0 ∉ s.stones → c.grid q0 = some t0 → t0 ≠ s →
      (∃ p ∈ l, q0 ∈ p.neighbors) →
      l.foldlM (removePointStep Z s) c = .error .attrError := by
  intro l
  induction l with
  | nil =>
    rintro c q0 t0 _ _ _ _ ⟨p, hp, _⟩
    exact absurd hp (List.not_mem_nil p)
  | cons p1 tl ih =>
    rintro c q0 t0 hsub hq0 hg ht ⟨p, hp, hnb⟩
    rw [List.foldlM_cons]
    rcases List.mem_cons.mp hp with rfl | hptl
    · have hbody : removePointStep Z s c p = .error .attrError := by
        unfold removePointStep
        rw [removeInner_err s p p.neighbors c ⟨q0, hnb, t0, hg, ht⟩]
        rfl
      rw [hbody]
      rfl
    · rcases removePointStep_cases Z s c p1 with hb | hb
      · rw [hb]; rfl
      · rw [hb]
        have hne : q0 ≠ p1 := fun h => hq0 (h ▸ hsub p1 (List.mem_cons_self p1 tl))
        refine ih (Board.mk c.num_rows c.num_cols
          (fun q => if q = p1 then none else c.grid q) (c.hash ^^^ Z.code p1 s.color))
          q0 t0 (fun x hx => hsub x (List.mem_cons_of_mem p1 hx)) hq0 ?_ ht ⟨p, hptl, hnb⟩
        show (if q0 = p1 then none else c.grid q0) = some t0
        rw [if_neg hne]
        exact hg

theorem remove_string_err (Z : Zobrist) (c : Board) (s t0 : GoString) (p0 q0 : Point)
    (hp0 : p0 ∈ s.stones) (hnb : q0 ∈ p0.neighbors) (hg : c.grid q0 = some t0)
    (ht : t0 ≠ s) (hq0 : q0 ∉ s.stones) :
    remove_string Z c s = .error .attrError := by
  unfold remove_string
  exact removeFold_err Z s (sortStones s.stones) c q0 t0
    (fun x hx => mem_sortStones.mp hx) hq0 hg ht ⟨p0, mem_sortStones.mpr hp0, hnb⟩

theorem oppFold_spec (Z : Zobrist) (pl : Player) (pt : Point) (ns : GoString)
    (hnscol : ns.color = pl) :
    ∀ (l : List GoString) (cur b' : Board),
      Coherent cur → OnGridOnly cur → HashInv Z cur →
      cur.grid pt = some ns →
      l.Nodup →
      (∀ o ∈ l, o.color ≠ pl ∧ ∃ n, n ∈ pt.neighbors ∧ cur.grid n = some o) →
      l.foldlM (oppStep Z pt) cur = .ok b' →
      Coherent b' ∧ OnGridOnly b' ∧ HashInv Z b' ∧ b'.grid pt = some ns ∧
      (∀ q, (b'.grid q).map GoString.color = (cur.grid q).map GoString.color) ∧
      b'.num_rows = cur.num_rows ∧ b'.num_cols = cur.num_cols := by
  intro l
  induction l with
  | nil =>
    intro cur b' hc ho hh hpt _ _ hfold
    have hb : cur = b' := Except.ok.inj hfold
    subst hb
    exact ⟨hc, ho, hh, hpt, fun q => rfl, rfl, rfl⟩
  | cons o tl ih =>
    intro cur b' hc ho hh hpt hnd hwit hfold
    rw [List.foldlM_cons] at hfold
    obtain ⟨hocol, n, hn, hgn⟩ := hwit o (List.mem_cons_self o tl)
    have hno : ns ≠ o := fun h => hocol (by rw [← h]; exact hnscol)
    obtain ⟨hno1, hall⟩ := hc n o hgn
    have hptno : pt ∉ o.stones := fun hmem =>
      hno (Option.some.inj (hpt.symm.trans (hall pt hmem)))
    have hond : o ∉ tl := (List.nodup_cons.mp hnd).1
    unfold oppStep at hfold
    by_cases hlib : (o.without_liberty pt).num_liberties ≠ 0
    · rw [if_pos hlib] at hfold
      have hfold' : tl.foldlM (oppStep Z pt)
          (replace_string cur (o.without_liberty pt)) = .ok b' := hfold
      have hgrid' : ∀ q, (replace_string cur (o.without_liberty pt)).grid q
          = if q ∈ o.stones then some (o.without_liberty pt) else cur.grid q :=
        fun q => rfl
      have hc' : Coherent (replace_string cur (o.without_liberty pt)) := by
        intro p s hps
        rw [hgrid' p] at hps
        by_cases hpo : p ∈ o.stones
        · rw [if_pos hpo] at hps
          have hs : s = o.without_liberty pt := (Option.some.inj hps).symm
          subst hs
          refine ⟨hpo, fun q hq => ?_⟩
          have hq2 : q ∈ o.stones := hq
          rw [hgrid' q, if_pos hq2]
        · rw [if_neg hpo] at hps
          obtain ⟨hp1, hp2⟩ := hc p s hps
          refine ⟨hp1, fun q hq => ?_⟩
          have hqo : q ∉ o.stones := by
            intro hqo
            have h1 := hall q hqo
            have h2 := hp2 q hq
            have : o = s := Option.some.inj (h1.symm.trans h2)
            exact hpo (this ▸ hp1)
          rw [hgrid' q, if_neg hqo]
          exact hp2 q hq
      have ho' : OnGridOnly (replace_string cur (o.without_liberty pt)) := by
        intro p hne
        by_cases hpo : p ∈ o.stones
        · exact ho p (by rw [hall p hpo]; exact Option.noConfusion)
        · rw [hgrid' p, if_neg hpo] at hne
          exact ho p hne
      have hmapc : ∀ q, ((replace_string cur (o.without_liberty pt)).grid q).map GoString.color
          = (cur.grid q).map GoString.color := by
        intro q
        rw [hgrid' q]
        by_cases hqo : q ∈ o.stones
        · rw [if_pos hqo, hall q hqo]
          rfl
        · rw [if_neg hqo]
      have hh' : HashInv Z (replace_string cur (o.without_liberty pt)) := by
        show (replace_string cur (o.without_liberty pt)).hash
          = Z.empty ^^^ boardXor Z (replace_string cur (o.without_liberty pt))
        have hbx : boardXor Z (replace_string cur (o.without_liberty pt)) = boardXor Z cur := by
          unfold boardXor
          exact Finset.fold_congr (fun q _ => by
            unfold cellCode
            rw [hgrid' q]
            by_cases hqo : q ∈ o.stones
            · rw [if_pos hqo, hall q hqo]
              rfl
            · rw [if_neg hqo])
        rw [hbx]
        exact hh
      have hpt' : (replace_string cur (o.without_liberty pt)).grid pt = some ns := by
        rw [hgrid' pt, if_neg hptno]
        exact hpt
      have hwit' : ∀ o' ∈ tl, o'.color ≠ pl ∧
          ∃ n', n' ∈ pt.neighbors ∧
            (replace_string cur (o.without_liberty pt)).grid n' = some o' := by
        intro o' ho'tl
        obtain ⟨hcol', n', hn', hgn'⟩ := hwit o' (List.mem_cons_of_mem o ho'tl)
        refine ⟨hcol', n', hn', ?_⟩
        have hn'o : n' ∉ o.stones := by
          intro hmem
          have : o = o' := Option.some.inj ((hall n' hmem).symm.trans hgn')
          exact hond (this ▸ ho'tl)
        rw [hgrid' n', if_neg hn'o]
        exact hgn'
      obtain ⟨hc2, ho2, hh2, hpt2, hmap2, hr2, hcl2⟩ :=
        ih (replace_string cur (o.without_liberty pt)) b' hc' ho' hh' hpt'
          (List.nodup_cons.mp hnd).2 hwit' hfold'
      exact ⟨hc2, ho2, hh2, hpt2, fun q => (hmap2 q).trans (hmapc q), hr2, hcl2⟩
    · rw [if_neg hlib] at hfold
      have herr : remove_string Z cur o = .error .attrError :=
        remove_string_err Z cur o ns n pt hno1 (mem_neighbors_symm hn) hpt hno hptno
      rw [herr] at hfold
      cases hfold

theorem mergedBoard_spec (Z : Zobrist) (b : Board) (pl : Player) (pt : Point)
    (ns : GoString) (L : List GoString)
    (hcB : Coherent b) (hoB : OnGridOnly b) (hhB : HashInv Z b)
    (hog : b.is_on_grid pt = true) (hemp : b.grid pt = none)
    (hnscol : ns.color = pl)
    (hsame : ∀ s ∈ L, s.color = pl ∧ ∃ n, n ∈ pt.neighbors ∧ b.grid n = some s)
    (hstones : ∀ q, q ∈ ns.stones ↔ q = pt ∨ ∃ s, s ∈ L ∧ q ∈ s.stones) :
    Coherent (mergedBoard Z b pl pt ns) ∧ OnGridOnly (mergedBoard Z b pl pt ns) ∧
    HashInv Z (mergedBoard Z b pl pt ns) ∧
    (mergedBoard Z b pl pt ns).grid pt = some ns ∧
    (∀ q, q ≠ pt →
      ((mergedBoard Z b pl pt ns).grid q).map GoString.color = (b.grid q).map GoString.color) ∧
    (∀ o n, o.color ≠ pl → b.grid n = some o →
      (mergedBoard Z b pl pt ns).grid n = some o) := by
  have hgrid2 : ∀ q, (mergedBoard Z b pl pt ns).grid q
      = if q ∈ ns.stones then some ns else b.grid q := fun q => rfl
  have hptns : pt ∈ ns.stones := (hstones pt).mpr (Or.inl rfl)
  have hcell : ∀ q ∈ ns.stones, q = pt ∨
      ∃ s, b.grid q = some s ∧ s.color = pl ∧ (∀ r ∈ s.stones, r ∈ ns.stones) := by
    intro q hq
    rcases (hstones q).mp hq with hq | ⟨s, hsL, hqs⟩
    · exact Or.inl hq
    · right
      obtain ⟨hscol, n, _, hgn⟩ := hsame s hsL
      obtain ⟨_, hall⟩ := hcB n s hgn
      exact ⟨s, hall q hqs, hscol, fun r hr => (hstones r).mpr (Or.inr ⟨s, hsL, hr⟩)⟩
  refine ⟨?_, ?_, ?_, ?_, ?_, ?_⟩
  · -- Coherent
    intro p s hps
    rw [hgrid2 p] at hps
    by_cases hp : p ∈ ns.stones
    · rw [if_pos hp] at hps
      have hs : s = ns := (Option.some.inj hps).symm
      subst hs
      refine ⟨hp, fun q hq => ?_⟩
      rw [hgrid2 q, if_pos hq]
    · rw [if_neg hp] at hps
      obtain ⟨hp1, hp2⟩ := hcB p s hps
      refine ⟨hp1, fun q hq => ?_⟩
      have hqns : q ∉ ns.stones := by
        intro hqns
        rcases hcell q hqns with rfl | ⟨t, hgt, _, hsub⟩
        · exact Option.noConfusion ((hp2 q hq).symm.trans hemp)
        · have : t = s := Option.some.inj (hgt.symm.trans (hp2 q hq))
          subst this
          exact hp (hsub p hp1)
      rw [hgrid2 q, if_neg hqns]
      exact hp2 q hq
  · -- OnGridOnly
    intro p hne
    rw [hgrid2 p] at hne
    by_cases hp : p ∈ ns.stones
    · rcases hcell p hp with rfl | ⟨s, hgs, _, _⟩
      · exact hog
      · exact hoB p (by rw [hgs]; exact Option.noConfusion)
    · rw [if_neg hp] at hne
      exact hoB p hne
  · -- HashInv
    show (mergedBoard Z b pl pt ns).hash = Z.empty ^^^ boardXor Z (mergedBoard Z b pl pt ns)
    have hAP : allPoints (mergedBoard Z b pl pt ns) = allPoints b := rfl
    have hptAP : pt ∈ allPoints b := mem_allPoints.mpr hog
    have hcc : ∀ q ∈ (allPoints b).erase pt,
        cellCode Z (mergedBoard Z b pl pt ns) q = cellCode Z b q := by
      intro q hq
      have hqne : q ≠ pt := Finset.ne_of_mem_erase hq
      unfold cellCode
      rw [hgrid2 q]
      by_cases hqs : q ∈ ns.stones
      · rcases hcell q hqs with rfl | ⟨s, hgs, hscol, _⟩
        · exact absurd rfl hqne
        · rw [if_pos hqs, hgs]
          show Z.code q ns.color = Z.code q s.color
          rw [hscol, hnscol]
      · rw [if_neg hqs]
    have hx2 : boardXor Z (mergedBoard Z b pl pt ns)
        = Z.code pt pl ^^^ ((allPoints b).erase pt).fold (fun x y : Nat => x ^^^ y) 0
            (cellCode Z b) := by
      unfold boardXor
      rw [hAP, xorFold_extract (allPoints b) _ pt hptAP]
      have h1 : cellCode Z (mergedBoard Z b pl pt ns) pt = Z.code pt pl := by
        unfold cellCode
        rw [hgrid2 pt, if_pos hptns]
        show Z.code pt ns.color = Z.code pt pl
        rw [hnscol]
      rw [h1, Finset.fold_congr hcc]
    have hx1 : boardXor Z b
        = ((allPoints b).erase pt).fold (fun x y : Nat => x ^^^ y) 0 (cellCode Z b) := by
      unfold boardXor
      rw [xorFold_extract (allPoints b) _ pt hptAP]
      have h0 : cellCode Z b pt = 0 := by
        unfold cellCode
        rw [hemp]
      rw [h0]
      exact Nat.zero_xor _
    show b.hash ^^^ Z.code pt pl = Z.empty ^^^ boardXor Z (mergedBoard Z b pl pt ns)
    rw [hx2, hhB, hx1, Nat.xor_assoc, Nat.xor_comm _ (Z.code pt pl)]
  · rw [hgrid2 pt, if_pos hptns]
  · -- colors preserved away from pt
    intro q hqne
    rw [hgrid2 q]
    by_cases hqs : q ∈ ns.stones
    · rcases hcell q hqs with rfl | ⟨s, hgs, hscol, _⟩
      · exact absurd rfl hqne
      · rw [if_pos hqs, hgs]
        show some ns.color = some s.color
        rw [hnscol, hscol]
    · rw [if_neg hqs]
  · -- opposite-color strings keep their cells
    intro o n hocol hgn
    have hnns : n ∉ ns.stones := by
      intro hnns
      rcases hcell n hnns with rfl | ⟨t, hgt, htcol, _⟩
      · rw [hemp] at hgn
        exact Option.noConfusion hgn
      · have : t = o := Option.some.inj (hgt.symm.trans hgn)
        subst this
        exact hocol htcol
    rw [hgrid2 n, if_neg hnns]
    exact hgn

theorem place_stone_eq (Z : Zobrist) (b : Board) (pl : Player) (pt : Point)
    (hog : b.is_on_grid pt = true) (hemp : b.grid pt = none) :
    place_stone Z b pl pt
      = ((scanNeighbors b pl pt).2.1.foldlM GoString.merged_with
          ⟨pl, {pt}, (scanNeighbors b pl pt).1.toFinset⟩).bind (fun new_string =>
            (scanNeighbors b pl pt).2.2.foldlM (oppStep Z pt)
              (mergedBoard Z b pl pt new_string)) := by
  unfold place_stone
  rw [if_pos hog, hemp]
  rfl

theorem place_spec (Z : Zobrist) (b : Board) (pl : Player) (pt : Point) (b' : Board)
    (hInv : BoardInv Z b) (hok : place_stone Z b pl pt = .ok b') :
    BoardInv Z b' ∧ (∃ ns, b'.grid pt = some ns ∧ ns.color = pl) ∧
    (∀ q, q ≠ pt → (b'.grid q).map GoString.color = (b.grid q).map GoString.color) ∧
    b'.num_rows = b.num_rows ∧ b'.num_cols = b.num_cols ∧
    b.grid pt = none ∧ b.is_on_grid pt = true := by
  obtain ⟨hcB, hoB, hhB⟩ := hInv
  by_cases hog : b.is_on_grid pt = true
  · cases hemp : b.grid pt with
    | some s =>
      have herr : place_stone Z b pl pt = .error .assertError := by
        unfold place_stone
        rw [if_pos hog, hemp]
      rw [herr] at hok
      cases hok
    | none =>
      rw [place_stone_eq Z b pl pt hog hemp] at hok
      obtain ⟨hsame, hopp, hnd⟩ := scan_spec b pl pt
      obtain ⟨ns, hmerge, hnscol0, hmem⟩ :=
        mergeFold_spec (scanNeighbors b pl pt).2.1
          ⟨pl, {pt}, (scanNeighbors b pl pt).1.toFinset⟩ (fun s hs => (hsame s hs).1)
      rw [hmerge] at hok
      have hnscol : ns.color = pl := hnscol0
      have hfold : (scanNeighbors b pl pt).2.2.foldlM (oppStep Z pt)
          (mergedBoard Z b pl pt ns) = .ok b' := hok
      have hstones : ∀ q, q ∈ ns.stones ↔ q = pt ∨
          ∃ s, s ∈ (scanNeighbors b pl pt).2.1 ∧ q ∈ s.stones := by
        intro q
        rw [hmem q]
        constructor
        · rintro (h | h)
          · exact Or.inl (Finset.mem_singleton.mp h)
          · exact Or.inr h
        · rintro (rfl | h)
          · exact Or.inl (Finset.mem_singleton.mpr rfl)
          · exact Or.inr h
      obtain ⟨hc2, ho2, hh2, hpt2, hmapne, hoppkeep⟩ :=
        mergedBoard_spec Z b pl pt ns (scanNeighbors b pl pt).2.1
          hcB hoB hhB hog hemp hnscol hsame hstones
      have hwit : ∀ o ∈ (scanNeighbors b pl pt).2.2, o.color ≠ pl ∧
          ∃ n, n ∈ pt.neighbors ∧ (mergedBoard Z b pl pt ns).grid n = some o := by
        intro o ho
        obtain ⟨hocol, n, hn, hgn⟩ := hopp o ho
        exact ⟨hocol, n, hn, hoppkeep o n hocol hgn⟩
      obtain ⟨hc3, ho3, hh3, hpt3, hmap3, hr3, hcl3⟩ :=
        oppFold_spec Z pl pt ns hnscol (scanNeighbors b pl pt).2.2
          (mergedBoard Z b pl pt ns) b' hc2 ho2 hh2 hpt2 hnd hwit hfold
      refine ⟨⟨hc3, ho3, hh3⟩, ⟨ns, hpt3, hnscol⟩, ?_, hr3, hcl3, rfl, hog⟩
      intro q hq
      exact (hmap3 q).trans (hmapne q hq)
  · have herr : place_stone Z b pl pt = .error .assertError := by
      unfold place_stone
      rw [if_neg hog]
    rw [herr] at hok
    cases hok

theorem xorFold_zero (s : Finset Point) :
    s.fold (fun x y : Nat => x ^^^ y) 0 (fun _ => 0) = 0 := by
  induction s using Finset.induction_on with
  | empty => rfl
  | insert h ih =>
    rw [Finset.fold_insert h, Nat.zero_xor]
    exact ih

theorem boardInv_init (Z : Zobrist) (nr nc : Int) : BoardInv Z (Board.init Z nr nc) := by
  refine ⟨?_, ?_, ?_⟩
  · intro p s hps
    exact Option.noConfusion hps
  · intro p hne
    exact absurd rfl hne
  · show Z.empty = Z.empty ^^^ boardXor Z (Board.init Z nr nc)
    have h : boardXor Z (Board.init Z nr nc) = 0 := by
      unfold boardXor
      have hc : ∀ q ∈ allPoints (Board.init Z nr nc),
          cellCode Z (Board.init Z nr nc) q = (fun _ : Point => (0 : Nat)) q :=
        fun q _ => rfl
      rw [Finset.fold_congr hc]
      exact xorFold_zero _
    rw [h]
    exact (Nat.xor_zero _).symm

theorem reachable_inv (Z : Zobrist) (b : Board) (h : Reachable Z b) : BoardInv Z b := by
  induction h with
  | init nr nc => exact boardInv_init Z nr nc
  | step b pl pt b' hr hok ih => exact (place_spec Z b pl pt b' ih hok).1

theorem gameStateInit_board (b : Board) (np : Player) (prev : Option GameState)
    (mv : Option Move) : (GameState.init b np prev mv).board = b := rfl

theorem gameStateInit_next_player (b : Board) (np : Player) (prev : Option GameState)
    (mv : Option Move) : (GameState.init b np prev mv).next_player = np := rfl

theorem gameStateInit_previous (b : Board) (np : Player) (prev : Option GameState)
    (mv : Option Move) : (GameState.init b np prev mv).previous = prev := rfl

theorem gameStateInit_last_move (b : Board) (np : Player) (prev : Option GameState)
    (mv : Option Move) : (GameState.init b np prev mv).last_move = mv := rfl

theorem gameStateInit_previous_states_root (b : Board) (np : Player) (mv : Option Move) :
    (GameState.init b np none mv).previous_states = ∅ := rfl

theorem gameStateInit_previous_states (b : Board) (np : Player) (p : GameState)
    (mv : Option Move) : (GameState.init b np (some p) mv).previous_states
      = insert (p.next_player, p.board.zobrist_hash) p.previous_states := rfl

theorem apply_move_ok_form (Z : Zobrist) (s : GameState) (m : Move) (s' : GameState)
    (hok : GameState.apply_move Z s m = .ok s') :
    (∃ pt nb, m.point = some pt ∧ place_stone Z s.board s.next_player pt = .ok nb ∧
      s' = GameState.init nb s.next_player.other (some s) (some m)) ∨
    (m.point = none ∧ s' = GameState.init s.board s.next_player.other (some s) (some m)) := by
  cases hm : m.point with
  | some pt =>
    unfold GameState.apply_move at hok
    rw [hm] at hok
    dsimp only at hok
    cases hplace : place_stone Z s.board s.next_player pt with
    | ok nb =>
      rw [hplace] at hok
      exact Or.inl ⟨pt, nb, rfl, hplace, (Except.ok.inj hok).symm⟩
    | error e =>
      rw [hplace] at hok
      cases hok
  | none =>
    unfold GameState.apply_move at hok
    rw [hm] at hok
    exact Or.inr ⟨rfl, (Except.ok.inj hok).symm⟩

theorem reachableState_board (Z : Zobrist) (s : GameState) (h : ReachableState Z s) :
    Reachable Z s.board := by
  induction h with
  | root n => exact Reachable.init n n
  | step s m s' hr hok ih =>
    rcases apply_move_ok_form Z s m s' hok with ⟨pt, nb, _, hplace, rfl⟩ | ⟨_, rfl⟩
    · rw [gameStateInit_board]
      exact Reachable.step _ _ _ _ ih hplace
    · rw [gameStateInit_board]
      exact ih

theorem is_over_init (nb : Board) (np : Player) (s : GameState) (m : Move) :
    (GameState.init nb np (some s) (some m)).is_over
      = .ok (m.is_resign || (m.is_pass && (match s.last_move with
          | none => false
          | some m2 => m2.is_pass))) := by
  unfold GameState.is_over
  rw [gameStateInit_last_move]
  dsimp only
  by_cases hres : m.is_resign = true
  · rw [if_pos hres, hres, Bool.true_or]
    rfl
  · have hres' : m.is_resign = false := Bool.eq_false_iff.mpr hres
    rw [if_neg hres, hres', Bool.false_or, gameStateInit_previous]
    dsimp only
    cases hlm : s.last_move with
    | none => rw [Bool.and_false]; rfl
    | some m2 => rfl

theorem reachableState_over (Z : Zobrist) (s : GameState) (h : ReachableState Z s) :
    ∃ ov, s.is_over = .ok ov := by
  induction h with
  | root n => exact ⟨false, rfl⟩
  | step s m s' hr hok ih =>
    rcases apply_move_ok_form Z s m s' hok with ⟨pt, nb, _, _, rfl⟩ | ⟨_, rfl⟩ <;>
      exact ⟨_, is_over_init _ _ _ _⟩

theorem is_valid_move_over (Z : Zobrist) (s : GameState) (m : Move)
    (hov : s.is_over = .ok true) : GameState.is_valid_move Z s m = .ok false := by
  unfold GameState.is_valid_move
  rw [hov]
  rfl

theorem is_valid_move_pass_or_resign (Z : Zobrist) (s : GameState) (m : Move)
    (hov : s.is_over = .ok false) (hpr : (m.is_pass || m.is_resign) = true) :
    GameState.is_valid_move Z s m = .ok true := by
  unfold GameState.is_valid_move
  rw [hov]
  dsimp only [Except.bind]
  rw [if_neg Bool.false_ne_true, hpr, if_pos rfl]
  rfl

theorem is_valid_move_play_eq (Z : Zobrist) (s : GameState) (m : Move) (pt : Point)
    (hov : s.is_over = .ok false) (hpr : (m.is_pass || m.is_resign) = false)
    (hpt : m.point = some pt) :
    GameState.is_valid_move Z s m
      = match s.board.grid pt with
        | some _ => pure false
        | none =>
          (GameState.is_move_self_capture Z s s.next_player m).bind (fun sc =>
            if sc then pure false
            else (GameState.does_move_violate_ko Z s s.next_player m).bind (fun ko =>
              pure (!ko))) := by
  unfold GameState.is_valid_move
  rw [hov]
  dsimp only [Except.bind]
  rw [if_neg Bool.false_ne_true, hpr, if_neg Bool.false_ne_true, hpt]

/-- Claim C1 (evaluation of the code at the failing input): on a 5×5
board, after black (3,3) and white (2,3), (4,3), (3,2), the final
surrounding white play at (3,4) does not leave (3,3) empty — it raises
`AttributeError` inside `Board._remove_string`, because capture
resolution calls `GoString.with_liberty`, whose body reads the
misspelled attribute `liberities`. -/
theorem c1_capture_raises : c1Chain = .error .attrError := rfl

/-- Claim C2 (counterexample): for the reachable state with a black
stone on (1,1) of a 2×2 board, the move "white plays (1,1)" targets an
occupied point — a rule violation — yet both constituent predicates
raise `AssertionError` (from `place_stone`'s emptiness precondition)
instead of returning a boolean. -/
theorem c2_predicates_raise_on_occupied :
    c2S.board.get ⟨1, 1⟩ = some Player.black ∧
    GameState.is_move_self_capture Zdemo c2S Player.white (Move.play ⟨1, 1⟩)
      = .error .assertError ∧
    GameState.does_move_violate_ko Zdemo c2S Player.white (Move.play ⟨1, 1⟩)
      = .error .assertError :=
  ⟨rfl, rfl, rfl⟩

/-- Claim C2 (amended): from any reachable state, every rule-violating
move is surfaced by `is_valid_move` as a boolean — `.ok false` whenever
the move does not carry a pass or resign flag — and `is_valid_move`
itself never raises on such a move; the constituent predicates, however,
raise when called directly on an occupied target (see the
counterexample). -/
theorem c2_rule_violations_reported (Z : Zobrist) (s : GameState) (m : Move)
    (hr : ReachableState Z s) (hv : Violating Z s m) :
    ∃ bl, GameState.is_valid_move Z s m = .ok bl ∧
      (m.is_pass = false → m.is_resign = false → bl = false) := by
  obtain ⟨ov, hov⟩ := reachableState_over Z s hr
  cases ov with
  | true =>
    exact ⟨false, is_valid_move_over Z s m hov, fun _ _ => rfl⟩
  | false =>
    by_cases hpr : (m.is_pass || m.is_resign) = true
    · refine ⟨true, is_valid_move_pass_or_resign Z s m hov hpr, ?_⟩
      intro h1 h2
      rw [h1, h2] at hpr
      simp at hpr
    · have hpr' : (m.is_pass || m.is_resign) = false := Bool.eq_false_iff.mpr hpr
      cases hpt : m.point with
      | none =>
        exfalso
        rcases hv with hv | ⟨pt', hpt', _⟩ | hv | hv
        · cases Except.ok.inj (hov.symm.trans hv)
        · rw [hpt] at hpt'
          cases hpt'
        · unfold GameState.is_move_self_capture at hv
          rw [hpt] at hv
          cases Except.ok.inj hv
        · unfold GameState.does_move_violate_ko at hv
          rw [hpt] at hv
          cases Except.ok.inj hv
      | some pt =>
        rw [is_valid_move_play_eq Z s m pt hov hpr' hpt]
        cases hg : s.board.grid pt with
        | some t =>
          exact ⟨false, rfl, fun _ _ => rfl⟩
        | none =>
          rcases hv with hv | ⟨pt', hpt', hgv⟩ | hv | hv
          · cases Except.ok.inj (hov.symm.trans hv)
          · rw [hpt] at hpt'
            have hpp : pt = pt' := Option.some.inj hpt'
            subst hpp
            refine absurd ?_ hgv
            unfold Board.get
            rw [hg]
            rfl
          · refine ⟨false, ?_, fun _ _ => rfl⟩
            show (GameState.is_move_self_capture Z s s.next_player m).bind _
              = Except.ok false
            rw [hv]
            rfl
          · refine ⟨false, ?_, fun _ _ => rfl⟩
            show (GameState.is_move_self_capture Z s s.next_player m).bind _
              = Except.ok false
            have hplace : ∃ nb, place_stone Z s.board s.next_player pt = .ok nb := by
              unfold GameState.does_move_violate_ko at hv
              rw [hpt] at hv
              dsimp only at hv
              cases hp : place_stone Z s.board s.next_player pt with
              | ok nb => exact ⟨nb, rfl⟩
              | error e =>
                rw [hp] at hv
                cases hv
            obtain ⟨nb, hnb⟩ := hplace
            have hInv : BoardInv Z s.board :=
              reachable_inv Z s.board (reachableState_board Z s hr)
            obtain ⟨_, ⟨nsg, hgs, _⟩, _⟩ := place_spec Z s.board s.next_player pt nb hInv hnb
            have hsc : GameState.is_move_self_capture Z s s.next_player m
                = .ok (nsg.num_liberties == 0) := by
              unfold GameState.is_move_self_capture
              rw [hpt]
              dsimp only
              rw [hnb]
              dsimp only [Except.bind]
              have hgs' : nb.get_go_string pt = some nsg := hgs
              rw [hgs']
              rfl
            rw [hsc]
            cases hscv : (nsg.num_liberties == 0) with
            | true => rfl
            | false =>
              rw [hv]
              rfl

/-- Claim C2 (witness): the amended theorem applied at the concrete
reachable 2×2 state with black on (1,1) and the violating (occupied)
white play at (1,1). -/
theorem c2_witness :
    ∃ bl, GameState.is_valid_move Zdemo c2S (Move.play ⟨1, 1⟩) = .ok bl ∧
      ((Move.play ⟨1, 1⟩).is_pass = false → (Move.play ⟨1, 1⟩).is_resign = false →
        bl = false) :=
  c2_rule_violations_reported Zdemo c2S (Move.play ⟨1, 1⟩)
    (ReachableState.step (GameState.new_game Zdemo 2) (Move.play ⟨1, 1⟩) c2S
      (ReachableState.root 2) rfl)
    (Or.inr (Or.inl ⟨⟨1, 1⟩, rfl, by decide⟩))

/-- Claim C3 (evaluation of the code at the failing input): from the
reachable 2×2 state (black (1,1), white (1,2), black passes, white to
move), white's play at (2,1) is a play move whose simulated placement
captures black's stone; `does_move_violate_ko` does not return the
membership boolean — it raises `AttributeError` through the capture
path's `with_liberty` call. -/
theorem c3_ko_raises_on_capture :
    c3State.bind (fun s =>
      GameState.does_move_violate_ko Zdemo s Player.white (Move.play ⟨2, 1⟩))
      = .error .attrError := rfl

/-- Claim C4: every board reachable from a fresh empty board by
successful `place_stone` calls has `zobrist_hash` equal to the
empty-board constant XORed with the Zobrist code of every occupied
(coordinate, color) pair. -/
theorem c4_zobrist_hash_invariant (Z : Zobrist) (b : Board) (h : Reachable Z b) :
    b.zobrist_hash = Z.empty ^^^ boardXor Z b :=
  (reachable_inv Z b h).2.2

/-- Claim C4 (witness): the invariant evaluated on the concrete board
reached by placing black (1,2) on an empty 2×2 board. -/
theorem c4_witness : sb1.zobrist_hash = Zdemo.empty ^^^ boardXor Zdemo sb1 :=
  c4_zobrist_hash_invariant Zdemo sb1
    (Reachable.step (Board.init Zdemo 2 2) .black ⟨1, 2⟩ sb1 (Reachable.init 2 2) rfl)

/-- Claim C5: `merged_with` on same-color groups returns the union of
the stones with liberties the union of the liberties minus the combined
stone set; on differently-colored groups it is a fatal precondition
failure (`AssertionError`). -/
theorem c5_merged_with_spec (A B : GoString) :
    (A.color = B.color →
      ∃ C, A.merged_with B = .ok C ∧ C.stones = A.stones ∪ B.stones ∧
        C.liberties = (A.liberties ∪ B.liberties) \ (A.stones ∪ B.stones)) ∧
    (A.color ≠ B.color → A.merged_with B = .error .assertError) := by
  constructor
  · intro h
    refine ⟨⟨A.color, A.stones ∪ B.stones,
      (A.liberties ∪ B.liberties) \ (A.stones ∪ B.stones)⟩, ?_, rfl, rfl⟩
    unfold GoString.merged_with
    rw [if_pos h.symm]
  · intro h
    unfold GoString.merged_with
    rw [if_neg (fun hh => h hh.symm)]

/-- Claim C5 (witness): `merged_with` evaluated on two concrete adjacent
same-color groups, and on a differently-colored pair. -/
theorem c5_witness :
    (∃ C, GoString.merged_with ⟨.black, {⟨1, 1⟩}, {⟨1, 2⟩, ⟨2, 1⟩}⟩
        ⟨.black, {⟨1, 2⟩}, {⟨1, 1⟩, ⟨2, 2⟩}⟩ = .ok C ∧
      C.stones = ({⟨1, 1⟩} : Finset Point) ∪ {⟨1, 2⟩} ∧
      C.liberties = (({⟨1, 2⟩, ⟨2, 1⟩} : Finset Point) ∪ {⟨1, 1⟩, ⟨2, 2⟩})
        \ (({⟨1, 1⟩} : Finset Point) ∪ {⟨1, 2⟩})) ∧
    GoString.merged_with ⟨.black, {⟨1, 1⟩}, {⟨1, 2⟩, ⟨2, 1⟩}⟩
      ⟨.white, {⟨2, 2⟩}, {⟨2, 1⟩}⟩ = .error .assertError :=
  ⟨(c5_merged_with_spec _ _).1 rfl, (c5_merged_with_spec _ _).2 (by decide)⟩

/-- Claim C6 (counterexample): a `Move` with all three of coordinate,
pass and resign selected passes the constructor's assert (the Python
guard is a three-way boolean XOR, which is a parity check), so this
invalid combination does not fail. -/
theorem c6_all_three_selected_accepted :
    Move.init (some ⟨1, 1⟩) true true = .ok ⟨some ⟨1, 1⟩, true, true⟩ := rfl

/-- Claim C6 (amended): the constructor succeeds exactly when an odd
number (one or all three) of the variants {coordinate, pass, resign} is
selected — so zero or exactly two selected fail, but all three selected
is accepted — and each of the three factories selects exactly one
variant. -/
theorem c6_constructor_parity_and_factories :
    (∀ (o : Option Point) (p r : Bool),
      (∃ m, Move.init o p r = .ok m) ↔
        ((if o.isSome then 1 else 0) + (if p then 1 else 0) + (if r then 1 else 0)) % 2
          = 1) ∧
    (∀ pt, Move.init (some pt) false false = .ok (Move.play pt) ∧
      (Move.play pt).is_play = true ∧ (Move.play pt).is_pass = false ∧
      (Move.play pt).is_resign = false) ∧
    (Move.init none true false = .ok Move.pass_turn ∧ Move.pass_turn.is_play = false ∧
      Move.pass_turn.is_pass = true ∧ Move.pass_turn.is_resign = false) ∧
    (Move.init none false true = .ok Move.resign ∧ Move.resign.is_play = false ∧
      Move.resign.is_pass = false ∧ Move.resign.is_resign = true) := by
  refine ⟨?_, fun pt => ⟨rfl, rfl, rfl, rfl⟩, ⟨rfl, rfl, rfl, rfl⟩, ⟨rfl, rfl, rfl, rfl⟩⟩
  intro o p r
  rcases o with _ | pt <;> cases p <;> cases r <;>
    simp [Move.init]

/-- Claim C7 (evaluation of the code at the failing input): from the
reachable 2×2 state where white's play at (2,1) captures, `apply_move`
does not return a successor game state at all — the placement on the
board copy raises `AttributeError` via the capture path's
`with_liberty` call. -/
theorem c7_apply_move_raises_on_capture :
    c3State.bind (fun s => GameState.apply_move Zdemo s (Move.play ⟨2, 1⟩))
      = .error .attrError := rfl

/-- Claim C8: `apply_move` never observably alters the predecessor's
board object.  In the heap model, for any valid board reference, the
heap cell the predecessor state refers to is unchanged by `applyMoveH`
(for play, pass and resign alike, and also when the placement raises),
so `get`, `get_go_string` and `zobrist_hash` on the predecessor's board
answer exactly as before. -/
theorem c8_apply_move_frame (Z : Zobrist) (h : List Board) (s : GameStateH) (m : Move)
    (hlt : s.bref < h.length) :
    ((applyMoveH Z h s m).1.getD s.bref (Board.init Z 0 0)
        = h.getD s.bref (Board.init Z 0 0)) ∧
    (∀ p, ((applyMoveH Z h s m).1.getD s.bref (Board.init Z 0 0)).get p
        = (h.getD s.bref (Board.init Z 0 0)).get p) ∧
    (∀ p, ((applyMoveH Z h s m).1.getD s.bref (Board.init Z 0 0)).get_go_string p
        = (h.getD s.bref (Board.init Z 0 0)).get_go_string p) ∧
    ((applyMoveH Z h s m).1.getD s.bref (Board.init Z 0 0)).zobrist_hash
        = (h.getD s.bref (Board.init Z 0 0)).zobrist_hash := by
  have happ : ∀ (b : Board),
      (h ++ [b]).getD s.bref (Board.init Z 0 0) = h.getD s.bref (Board.init Z 0 0) := by
    intro b
    rw [List.getD_append _ _ _ _ hlt]
  have hkey : (applyMoveH Z h s m).1.getD s.bref (Board.init Z 0 0)
      = h.getD s.bref (Board.init Z 0 0) := by
    unfold applyMoveH
    cases hm : m.point with
    | some pt =>
      dsimp only
      cases hp : place_stone Z (h.getD s.bref (Board.init Z 0 0)) s.next_player pt with
      | ok b' =>
        dsimp only
        exact happ b'
      | error e =>
        dsimp only
        exact happ _
    | none => rfl
  exact ⟨hkey, fun p => by rw [hkey], fun p => by rw [hkey], by rw [hkey]⟩

/-- Claim C8 (witness): the frame property evaluated on a one-board heap
with a pass move. -/
theorem c8_witness :
    ((applyMoveH Zdemo [Board.init Zdemo 2 2] (GameStateH.mk 0 .black none ∅ none)
        Move.pass_turn).1.getD 0 (Board.init Zdemo 0 0)
      = [Board.init Zdemo 2 2].getD 0 (Board.init Zdemo 0 0)) ∧
    (∀ p, ((applyMoveH Zdemo [Board.init Zdemo 2 2]
        (GameStateH.mk 0 .black none ∅ none) Move.pass_turn).1.getD 0
          (Board.init Zdemo 0 0)).get p
      = ([Board.init Zdemo 2 2].getD 0 (Board.init Zdemo 0 0)).get p) ∧
    (∀ p, ((applyMoveH Zdemo [Board.init Zdemo 2 2]
        (GameStateH.mk 0 .black none ∅ none) Move.pass_turn).1.getD 0
          (Board.init Zdemo 0 0)).get_go_string p
      = ([Board.init Zdemo 2 2].getD 0 (Board.init Zdemo 0 0)).get_go_string p) ∧
    ((applyMoveH Zdemo [Board.init Zdemo 2 2]
        (GameStateH.mk 0 .black none ∅ none) Move.pass_turn).1.getD 0
          (Board.init Zdemo 0 0)).zobrist_hash
      = ([Board.init Zdemo 2 2].getD 0 (Board.init Zdemo 0 0)).zobrist_hash :=
  c8_apply_move_frame Zdemo [Board.init Zdemo 2 2] (GameStateH.mk 0 .black none ∅ none)
    Move.pass_turn (by decide)

/-- Claim C9: `is_over` is `false` at a `new_game` root; for a child
state produced by a successful `apply_move`, it is `true` exactly when
the move resigns, or when the move passes and the predecessor's last
move was also a pass — so it is `false` after a single pass and never
raises on states built through the public lifecycle. -/
theorem c9_is_over_spec (Z : Zobrist) (n : Int) (s : GameState) (m : Move)
    (s' : GameState) (hok : GameState.apply_move Z s m = .ok s') :
    (GameState.new_game Z n).is_over = .ok false ∧
    s'.is_over = .ok (m.is_resign || (m.is_pass && (match s.last_move with
      | none => false
      | some m2 => m2.is_pass))) := by
  constructor
  · rfl
  · rcases apply_move_ok_form Z s m s' hok with ⟨pt, nb, _, _, rfl⟩ | ⟨_, rfl⟩ <;>
      exact is_over_init _ _ _ _

/-- Claim C9 (witness): a single pass from a fresh 2×2 game: the root is
not over and the passed-once child is not over either. -/
theorem c9_witness :
    (GameState.new_game Zdemo 3).is_over = .ok false ∧
    (GameState.init (GameState.new_game Zdemo 2).board
        ((GameState.new_game Zdemo 2).next_player.other)
        (some (GameState.new_game Zdemo 2)) (some Move.pass_turn)).is_over
      = .ok (Move.pass_turn.is_resign || (Move.pass_turn.is_pass &&
          (match (GameState.new_game Zdemo 2).last_move with
           | none => false
           | some m2 => m2.is_pass))) :=
  c9_is_over_spec Zdemo 3 (GameState.new_game Zdemo 2) Move.pass_turn _ rfl

/-- Claim C10: a successful `place_stone` always leaves the placing
player's own merged group on the board at the played point (even with
zero liberties), never removes any stone that was on the board (in
particular never the placing player's own group; only opposing-color
groups are ever candidates for removal, and a removal that actually
fires raises before completing), and suicide is detected afterwards by
`is_move_self_capture` — which reports exactly whether the resulting
group's liberty count is zero — rather than prevented by the board. -/
theorem c10_board_keeps_own_group (Z : Zobrist) (b : Board) (pl : Player) (pt : Point)
    (b' : Board) (hreach : Reachable Z b) (hok : place_stone Z b pl pt = .ok b') :
    ∃ ns, b'.get_go_string pt = some ns ∧ ns.color = pl ∧
      (∀ q c, b.get q = some c → b'.get q = some c) ∧
      (∀ (np : Player) (prev : Option GameState) (ps : Finset (Player × Nat))
          (lm : Option Move),
        GameState.is_move_self_capture Z (GameState.mk b np prev ps lm) pl (Move.play pt)
          = .ok (ns.num_liberties == 0)) := by
  obtain ⟨hInv', hex, hmap, hrest⟩ :=
    place_spec Z b pl pt b' (reachable_inv Z b hreach) hok
  obtain ⟨ns, hgs, hcol⟩ := hex
  have hemp : b.grid pt = none := hrest.2.2.1
  refine ⟨ns, hgs, hcol, ?_, ?_⟩
  · intro q c hq
    by_cases hqpt : q = pt
    · subst hqpt
      unfold Board.get at hq
      rw [hemp] at hq
      cases hq
    · unfold Board.get at hq ⊢
      rw [hmap q hqpt]
      exact hq
  · intro np prev ps lm
    unfold GameState.is_move_self_capture
    dsimp only [Move.play, GameState.board]
    rw [hok]
    dsimp only [Except.bind]
    have hgs' : b'.get_go_string pt = some ns := hgs
    rw [hgs']
    rfl

/-- Claim C10 (witness): white's suicide at (1,1) on the 2×2 board with
black on (1,2) and (2,1): the placement succeeds, the white group stays
on the board with zero liberties, no stone is removed, and
`is_move_self_capture` reports it. -/
theorem c10_witness :
    ∃ ns, sb3.get_go_string ⟨1, 1⟩ = some ns ∧ ns.color = Player.white ∧
      (∀ q c, sb2.get q = some c → sb3.get q = some c) ∧
      (∀ (np : Player) (prev : Option GameState) (ps : Finset (Player × Nat))
          (lm : Option Move),
        GameState.is_move_self_capture Zdemo (GameState.mk sb2 np prev ps lm)
          Player.white (Move.play ⟨1, 1⟩) = .ok (ns.num_liberties == 0)) :=
  c10_board_keeps_own_group Zdemo sb2 Player.white ⟨1, 1⟩ sb3
    (Reachable.step sb1 .black ⟨2, 1⟩ sb2
      (Reachable.step (Board.init Zdemo 2 2) .black ⟨1, 2⟩ sb1 (Reachable.init 2 2) rfl)
      rfl)
    rfl
